import Mathlib

/-!
# video: the ffmpeg stream converter and its frame reader loop

A shallow embedding of `src/video/video.go`.

* Go `[]byte` values are lists of bytes; a Go `error` is its message and `nil`
  is `none`.
* The objects the `Converter` holds behind interfaces or pointers are state that
  is passed explicitly.  The capture buffer and the subprocess input pipe are
  state machines given by their operations (`Sink`, `WriteCloser`), so every
  outcome of a write or a close is covered; `bytesBuffer` is the `bytes.Buffer`
  that `NewConverter` allocates.
* The subprocess output pipe is a `Pipe`: the script of what successive `Read`
  calls will find (data that has arrived, or a failure), ending in end of stream.
* The calls into the operating system made by `writeToFile` take their outcomes
  from a `FileSystem` record, and every call with an effect outside the
  converter is recorded, in order, in a list of `Action`s.
* `pipeToChan` runs over the list of outcomes of its successive cancellation
  polls and records what it does in a list of `Event`s; a send is recorded when
  the receiver has taken the frame.
-/

namespace video

/-! ## Data model -/

abbrev Byte := UInt8

abbrev Error := String

def frameX : Nat := 960

def frameY : Nat := 720

def bufferSize : Nat := frameX * frameY * 3

/-- The operations `Converter` uses on its `fileWriter`, over the buffer state `φ`:
`Write(p)` returns the count, the error and the new state; `Bytes()` the content. -/
structure Sink (φ : Type) where
  Write : φ → List Byte → (Nat × Option Error) × φ
  Bytes : φ → List Byte

/-- Go `bytes.Buffer` whose content is never read back: `Write` appends `p`,
returns `len(p)` and a nil error; `Bytes` is everything written so far. -/
def bytesBuffer : Sink (List Byte) where
  Write := fun b p => ((p.length, none), b ++ p)
  Bytes := fun b => b

/-- An `io.WriteCloser` over the state `ω`. -/
structure WriteCloser (ω : Type) where
  Write : ω → List Byte → (Nat × Option Error) × ω
  Close : ω → Option Error × ω

/-- What one `Read` on the subprocess output pipe finds: bytes that have
arrived, or a failure of the read. -/
inductive ReadEvent where
  | data (chunk : List Byte)
  | fail (err : Error)
  deriving DecidableEq

/-- The read end of the subprocess output pipe (an `io.ReadCloser`): what the
coming reads will find, in order, and the outcome of closing it. -/
structure Pipe where
  pending : List ReadEvent
  closeErr : Option Error
  deriving DecidableEq

def EOF : Error := "EOF"

def ErrUnexpectedEOF : Error := "unexpected EOF"

def ErrShortBuffer : Error := "short buffer"

/-- The call `Read(p)` with `len(p) = room`: the bytes stored at the front of `p`
(their number is the returned count), the error, and the pipe afterwards.  An
exhausted script is the end of the stream.  A chunk longer than `p` is
delivered up to `room` bytes and the remainder stays in the pipe. -/
def Pipe.Read (r : Pipe) (room : Nat) : (List Byte × Option Error) × Pipe :=
  match r.pending with
  | [] => (([], some EOF), r)
  | .fail e :: rest => (([], some e), { r with pending := rest })
  | .data c :: rest =>
    if c.length ≤ room then ((c, none), { r with pending := rest })
    else ((c.take room, none), { r with pending := .data (c.drop room) :: rest })

def Pipe.Close (r : Pipe) : Option Error × Pipe := (r.closeErr, r)

/-- Converter converts raw drone video data using ffmpeg.  The `ffmpeg` command
handle has no part in the operations below and is left out. -/
structure Converter (φ ω : Type) where
  fileWriter : Option φ
  writer : ω
  reader : Pipe

/-- Outcomes of the operating-system calls of `writeToFile`: `os.MkdirAll`,
`os.OpenFile`, and gob-encoding a byte blob into the opened file. -/
structure FileSystem where
  mkdirAll : Option Error
  openFile : Option Error
  encode : List Byte → Option Error

/-- The calls with an effect outside the converter, as `Close` issues them. -/
inductive Action where
  | mkdirAll (path : String) (perm : Nat)
  | openFile (path : String) (perm : Nat)
  | encode (blob : List Byte)
  | fileClose
  | writerClose
  | readerClose
  deriving DecidableEq

/-! ## Converter -/

/-- NewConverter creates a new instance of Converter; `stdinPipe` and
`stdoutPipe` are the results of `ffmpeg.StdinPipe()` and `ffmpeg.StdoutPipe()`. -/
def NewConverter {ω : Type} (stdinPipe : Except Error ω) (stdoutPipe : Except Error Pipe)
    (writeRawToFile : Bool) : Except Error (Converter (List Byte) ω) :=
  match stdinPipe with
  | .error err => .error err
  | .ok ffmpegIn =>
    match stdoutPipe with
    | .error err => .error err
    | .ok ffmpegOut =>
      let fileWriter : Option (List Byte) := if writeRawToFile then some [] else none
      .ok { fileWriter := fileWriter, writer := ffmpegIn, reader := ffmpegOut }

/-- Write writes data to pipe. -/
def Converter.Write {φ ω : Type} (fw : Sink φ) (w : WriteCloser ω) (c : Converter φ ω)
    (pkt : List Byte) : (Nat × Option Error) × Converter φ ω :=
  match c.fileWriter with
  | some b =>
    let teed := fw.Write b pkt
    match teed.1.2 with
    | some err => ((teed.1.1, some err), { c with fileWriter := some teed.2 })
    | none =>
      let fwd := w.Write c.writer pkt
      (fwd.1, { c with fileWriter := some teed.2, writer := fwd.2 })
  | none =>
    let fwd := w.Write c.writer pkt
    (fwd.1, { c with writer := fwd.2 })

/-- Read reads data from pipe. -/
def Converter.Read {φ ω : Type} (c : Converter φ ω) (room : Nat) :
    (List Byte × Option Error) × Converter φ ω :=
  let res := c.reader.Read room
  (res.1, { c with reader := res.2 })

/-- The flush of the capture buffer: returned error and the calls made.  The
deferred `file.Close()` runs on both returns that follow a successful open. -/
def Converter.writeToFile {φ ω : Type} (fs : FileSystem) (fw : Sink φ) (c : Converter φ ω) :
    Option Error × List Action :=
  match c.fileWriter with
  | some b =>
    match fs.mkdirAll with
    | some err => (some err, [.mkdirAll "fixtures" 0o755])
    | none =>
      match fs.openFile with
      | some err =>
        (some err, [.mkdirAll "fixtures" 0o755, .openFile "fixtures/video-stream.dat" 0o644])
      | none =>
        match fs.encode (fw.Bytes b) with
        | some err =>
          (some err, [.mkdirAll "fixtures" 0o755, .openFile "fixtures/video-stream.dat" 0o644,
            .encode (fw.Bytes b), .fileClose])
        | none =>
          (none, [.mkdirAll "fixtures" 0o755, .openFile "fixtures/video-stream.dat" 0o644,
            .encode (fw.Bytes b), .fileClose])
  | none => (none, [])

/-- What a call of `Close` leaves behind: the returned error, the calls made, in
order, and the converter afterwards. -/
structure Closed (φ ω : Type) where
  err : Option Error
  actions : List Action
  conv : Converter φ ω

/-- Close closes the reader and writer. -/
def Converter.Close {φ ω : Type} (fs : FileSystem) (fw : Sink φ) (w : WriteCloser ω)
    (c : Converter φ ω) : Closed φ ω :=
  let flushed := c.writeToFile fs fw
  let closedW := w.Close c.writer
  let closedR := c.reader.Close
  let errW := closedW.1
  let errR := closedR.1
  let actions := flushed.2 ++ [Action.writerClose, Action.readerClose]
  let conv : Converter φ ω := { c with writer := closedW.2, reader := closedR.2 }
  if errW ≠ none ∧ errR ≠ none then
    { err := some "failed to close writer and reader", actions := actions, conv := conv }
  else if errW ≠ none then
    { err := some "failed to close writer", actions := actions, conv := conv }
  else if errR ≠ none then
    { err := some "failed to close reader", actions := actions, conv := conv }
  else
    { err := none, actions := actions, conv := conv }

/-- The converter after the successive calls `Write(p1)`, ..., `Write(pn)`. -/
def writeAll {φ ω : Type} (fw : Sink φ) (w : WriteCloser ω) (c : Converter φ ω) :
    List (List Byte) → Converter φ ω
  | [] => c
  | p :: ps => writeAll fw w (c.Write fw w p).2 ps

/-! ## Frame reader loop -/

/-- Go `make([]byte, n)`: `n` zero bytes. -/
def make (n : Nat) : List Byte := List.replicate n 0

/-- The buffer after a `Read` into `buf[off:]` has stored `chunk` at its front. -/
def store (buf : List Byte) (off : Nat) (chunk : List Byte) : List Byte :=
  buf.take off ++ chunk ++ buf.drop (off + chunk.length)

/-- The variables of Go `io.ReadAtLeast` while it runs. -/
structure ReadState where
  buf : List Byte
  n : Nat
  err : Option Error
  reader : Pipe

/-- The loop `for n < min && err == nil { nn, err = r.Read(buf[n:]); n += nn }`
of Go `io.ReadAtLeast`, run for at most `fuel` rounds. -/
def readLoop (min : Nat) : Nat → ReadState → ReadState
  | 0, st => st
  | fuel + 1, st =>
    if st.n < min ∧ st.err = none then
      let res := st.reader.Read (st.buf.length - st.n)
      readLoop min fuel
        { buf := store st.buf st.n res.1.1, n := st.n + res.1.1.length, err := res.1.2,
          reader := res.2 }
    else st

/-- What `io.ReadFull` leaves behind: the count and error it returns, the buffer
it has filled and the reader afterwards. -/
structure ReadResult where
  n : Nat
  err : Option Error
  buf : List Byte
  reader : Pipe

/-- Go `io.ReadAtLeast(r, buf, min)`.  Every round of its loop but the last
takes one event off the pipe, so one round more than there are pending events
lets the loop run to its exit (`readLoop_exit`). -/
def ReadAtLeast (r : Pipe) (buf : List Byte) (min : Nat) : ReadResult :=
  if buf.length < min then { n := 0, err := some ErrShortBuffer, buf := buf, reader := r }
  else
    let st := readLoop min (r.pending.length + 1) { buf := buf, n := 0, err := none, reader := r }
    let err :=
      if st.n ≥ min then none
      else if st.n > 0 ∧ st.err = some EOF then some ErrUnexpectedEOF
      else st.err
    { n := st.n, err := err, buf := st.buf, reader := st.reader }

/-- Go `io.ReadFull(r, buf)`. -/
def ReadFull (r : Pipe) (buf : List Byte) : ReadResult :=
  ReadAtLeast r buf buf.length

/-- What `pipeToChan` does, as seen from outside. -/
inductive Event where
  | read (n : Nat) (err : Option Error)
  | log (msg : String)
  | send (buf : List Byte)
  | close
  deriving DecidableEq

/-- The goroutine running `pipeToChan`: its reader, what it has done so far,
and whether it has returned. -/
structure LoopState where
  reader : Pipe
  trace : List Event
  returned : Bool

def LoopState.init (reader : Pipe) : LoopState :=
  { reader := reader, trace := [], returned := false }

/-- The `default` case of the loop of `pipeToChan`, for frames of `size` bytes:
one frame is read and sent. -/
def frame (size : Nat) (st : LoopState) : LoopState :=
  let res := ReadFull st.reader (make size)
  let logged : List Event :=
    match res.err with
    | some err => [.log ("failed reading into buffer " ++ err)]
    | none => []
  { reader := res.reader
    trace := st.trace ++ [.read res.n res.err] ++ logged ++ [.send res.buf]
    returned := false }

/-- The loop of `pipeToChan`, for frames of `size` bytes, over the outcomes of
its successive polls of `ctx.Done()`, one for each iteration that is started:
`true` when the context is cancelled at that moment.  On `true` the function
returns and its deferred `close(videoChan)` runs.  When the polls run out the
goroutine is still in its loop. -/
def loop (size : Nat) : List Bool → LoopState → LoopState
  | [], st => st
  | true :: _, st => { st with trace := st.trace ++ [.close], returned := true }
  | false :: ctx, st => loop size ctx (frame size st)

/-- The goroutine `pipeToChan(ctx, reader, videoChan)`: the loop with frames of
`bufferSize` bytes.  `Start` passes the converter itself as the reader, and
`Converter.Read` hands every read on to the output pipe, so the reader here is
that pipe.  A blocked read or send is not represented: the run is followed from
one completed step to the next. -/
def pipeToChan (ctx : List Bool) (st : LoopState) : LoopState :=
  loop bufferSize ctx st

/-- The frames sent on the channel, in order. -/
def sends : List Event → List (List Byte)
  | [] => []
  | .send buf :: es => buf :: sends es
  | _ :: es => sends es

/-- The bytes the pipe delivers in the reads to come, as one stream. -/
def stream : List ReadEvent → List Byte
  | [] => []
  | .data c :: es => c ++ stream es
  | .fail _ :: es => stream es

/-! ## Sample endpoints -/

/-- A subprocess input pipe that takes every payload whole and records it. -/
def recorder : WriteCloser (List (List Byte)) where
  Write := fun st p => ((p.length, none), st ++ [p])
  Close := fun st => (none, st)

/-- A subprocess input pipe that takes one byte of every payload and reports a
short write; closing it fails. -/
def shortWriter : WriteCloser (List (List Byte)) where
  Write := fun st p => ((1, some "short write"), st ++ [p.take 1])
  Close := fun st => (some "already closed", st)

/-- A capture buffer that refuses every write. -/
def fullSink : Sink (List Byte) where
  Write := fun b _ => ((0, some "capture buffer full"), b)
  Bytes := fun b => b

/-- A file system on which the directory cannot be created. -/
def readOnlyFs : FileSystem where
  mkdirAll := some "mkdir fixtures: read-only file system"
  openFile := none
  encode := fun _ => none

/-- A file system on which every call succeeds. -/
def goodFs : FileSystem where
  mkdirAll := none
  openFile := none
  encode := fun _ => none

/-- Whether an action closes one of the two subprocess pipes. -/
def Action.isPipeClose : Action → Bool
  | .writerClose => true
  | .readerClose => true
  | _ => false

/-! # Theorems -/


/-! ## Converter: write path -/

/-- C2: when the capture sink is present and the tee write to it fails, `Write`
returns the count and the error of that tee write, and the forward write is not
performed: the subprocess input pipe is left as it was and the outcome is the
same whatever that pipe would have done. -/
theorem Write_capture_failure {φ ω : Type} (fw : Sink φ) (w : WriteCloser ω)
    (c : Converter φ ω) (pkt : List Byte) (b : φ) (err : Error)
    (hsink : c.fileWriter = some b) (hfail : (fw.Write b pkt).1.2 = some err) :
    (c.Write fw w pkt).1 = ((fw.Write b pkt).1.1, some err) ∧
      (c.Write fw w pkt).2.writer = c.writer ∧
      ∀ w2 : WriteCloser ω, c.Write fw w2 pkt = c.Write fw w pkt := by
  simp [Converter.Write, hsink, hfail]

theorem Write_capture_failure_witness :
    (({ fileWriter := some [], writer := [], reader := ⟨[], none⟩ } :
        Converter (List Byte) (List (List Byte))).fileWriter = some []) ∧
      (fullSink.Write [] [1, 2, 3]).1.2 = some "capture buffer full" ∧
      (( { fileWriter := some [], writer := [], reader := ⟨[], none⟩ } :
        Converter (List Byte) (List (List Byte))).Write fullSink recorder [1, 2, 3]).1
          = (0, some "capture buffer full") ∧
      (( { fileWriter := some [], writer := [], reader := ⟨[], none⟩ } :
        Converter (List Byte) (List (List Byte))).Write fullSink recorder [1, 2, 3]).2.writer
          = [] :=
  ⟨rfl, rfl,
    (Write_capture_failure fullSink recorder
      { fileWriter := some [], writer := [], reader := ⟨[], none⟩ } [1, 2, 3] []
      "capture buffer full" rfl rfl).1,
    (Write_capture_failure fullSink recorder
      { fileWriter := some [], writer := [], reader := ⟨[], none⟩ } [1, 2, 3] []
      "capture buffer full" rfl rfl).2.1⟩

/-- C3: when the capture sink is absent, or the tee write to it succeeds, `Write`
returns exactly the count and error of the forward write of the same payload to
the subprocess input pipe, and that pipe is left as the forward write leaves it. -/
theorem Write_forwards {φ ω : Type} (fw : Sink φ) (w : WriteCloser ω)
    (c : Converter φ ω) (pkt : List Byte)
    (h : c.fileWriter = none ∨ ∃ b, c.fileWriter = some b ∧ (fw.Write b pkt).1.2 = none) :
    (c.Write fw w pkt).1 = (w.Write c.writer pkt).1 ∧
      (c.Write fw w pkt).2.writer = (w.Write c.writer pkt).2 := by
  rcases h with h | ⟨b, hb, hok⟩
  · simp [Converter.Write, h]
  · simp [Converter.Write, hb, hok]

theorem Write_forwards_witness :
    (({ fileWriter := some [9], writer := [], reader := ⟨[], none⟩ } :
        Converter (List Byte) (List (List Byte))).Write bytesBuffer shortWriter [1, 2, 3]).1
          = (1, some "short write") ∧
      (({ fileWriter := some [9], writer := [], reader := ⟨[], none⟩ } :
        Converter (List Byte) (List (List Byte))).Write bytesBuffer shortWriter [1, 2, 3]).2.writer
          = [[1]] :=
  Write_forwards bytesBuffer shortWriter
    { fileWriter := some [9], writer := [], reader := ⟨[], none⟩ } [1, 2, 3]
    (Or.inr ⟨[9], rfl, rfl⟩)


/-! ## Converter: capture buffer -/

theorem Write_appends {ω : Type} (w : WriteCloser ω) (c : Converter (List Byte) ω)
    (p b : List Byte) (hb : c.fileWriter = some b) :
    (c.Write bytesBuffer w p).2.fileWriter = some (b ++ p) := by
  simp [Converter.Write, hb, bytesBuffer]

theorem writeAll_fileWriter {ω : Type} (w : WriteCloser ω) (ps : List (List Byte)) :
    ∀ (c : Converter (List Byte) ω) (b : List Byte), c.fileWriter = some b →
      (writeAll bytesBuffer w c ps).fileWriter = some (b ++ ps.flatten) := by
  induction ps with
  | nil => intro c b hb; simpa [writeAll] using hb
  | cons p ps ih =>
    intro c b hb
    have h := ih (c.Write bytesBuffer w p).2 (b ++ p) (Write_appends w c p b hb)
    simpa [writeAll, List.append_assoc] using h

/-- C4: on a converter freshly created with capture enabled, after the calls
`Write(p1)`, ..., `Write(pn)` the capture buffer holds exactly `p1 ++ ... ++ pn`,
whatever the subprocess input pipe did with each forward write; each `Write`
appends its whole payload to the buffer; and this content is the blob that
`writeToFile` hands to the encoder (it is the only blob it ever encodes, and it
is encoded whenever the directory and the file can be opened). -/
theorem capture_is_concatenation {ω : Type} (w : WriteCloser ω)
    (stdinPipe : Except Error ω) (stdoutPipe : Except Error Pipe)
    (c0 : Converter (List Byte) ω)
    (hnew : NewConverter stdinPipe stdoutPipe true = .ok c0) (ps : List (List Byte)) :
    (writeAll bytesBuffer w c0 ps).fileWriter = some ps.flatten ∧
      (∀ (c : Converter (List Byte) ω) (p b : List Byte), c.fileWriter = some b →
        (c.Write bytesBuffer w p).2.fileWriter = some (b ++ p)) ∧
      (∀ fs : FileSystem, fs.mkdirAll = none → fs.openFile = none →
        Action.encode ps.flatten ∈ ((writeAll bytesBuffer w c0 ps).writeToFile fs bytesBuffer).2) ∧
      (∀ (fs : FileSystem) (blob : List Byte),
        Action.encode blob ∈ ((writeAll bytesBuffer w c0 ps).writeToFile fs bytesBuffer).2 →
          blob = ps.flatten) := by
  have h0 : c0.fileWriter = some [] := by
    unfold NewConverter at hnew
    cases stdinPipe with
    | error e => simp at hnew
    | ok a =>
      cases stdoutPipe with
      | error e => simp at hnew
      | ok r =>
        simp only [Except.ok.injEq] at hnew
        subst hnew
        rfl
  have hall : (writeAll bytesBuffer w c0 ps).fileWriter = some ps.flatten := by
    simpa using writeAll_fileWriter w ps c0 [] h0
  refine ⟨hall, fun c p b hb => Write_appends w c p b hb, ?_, ?_⟩
  · intro fs hm ho
    unfold Converter.writeToFile
    rw [hall]
    simp only [hm, ho]
    cases fs.encode (bytesBuffer.Bytes ps.flatten) <;> simp [bytesBuffer]
  · intro fs blob hmem
    unfold Converter.writeToFile at hmem
    rw [hall] at hmem
    cases hm : fs.mkdirAll with
    | some e => simp [hm] at hmem
    | none =>
      cases ho : fs.openFile with
      | some e => simp [hm, ho] at hmem
      | none =>
        simp only [hm, ho] at hmem
        cases he : fs.encode (bytesBuffer.Bytes ps.flatten) <;>
          rw [he] at hmem <;> simpa [bytesBuffer] using hmem

theorem capture_is_concatenation_witness :
    NewConverter (.ok ([] : List (List Byte))) (.ok ⟨[], none⟩) true
        = .ok { fileWriter := some [], writer := [], reader := ⟨[], none⟩ } ∧
      (writeAll bytesBuffer shortWriter
        ({ fileWriter := some [], writer := [], reader := ⟨[], none⟩ } :
          Converter (List Byte) (List (List Byte)))
        [[1, 2], [], [3]]).fileWriter = some [1, 2, 3] :=
  ⟨rfl,
    (capture_is_concatenation shortWriter (.ok ([] : List (List Byte))) (.ok ⟨[], none⟩)
      { fileWriter := some [], writer := [], reader := ⟨[], none⟩ } rfl [[1, 2], [], [3]]).1⟩

/-! ## Converter: close -/

/-- C1: `Close` aggregates the outcomes `errW` of closing the writer and `errR`
of closing the reader: the combined error when both fail, an error naming the
writer when only the writer fails, an error naming the reader when only the
reader fails, and nil exactly when both succeed. -/
theorem Close_aggregates {φ ω : Type} (fs : FileSystem) (fw : Sink φ) (w : WriteCloser ω)
    (c : Converter φ ω) :
    (c.Close fs fw w).err =
        (match (w.Close c.writer).1, c.reader.Close.1 with
          | some _, some _ => some "failed to close writer and reader"
          | some _, none => some "failed to close writer"
          | none, some _ => some "failed to close reader"
          | none, none => none) ∧
      ((c.Close fs fw w).err = none ↔
        (w.Close c.writer).1 = none ∧ c.reader.Close.1 = none) := by
  cases hW : (w.Close c.writer).1 <;> cases hR : c.reader.Close.1 <;>
    simp [Converter.Close, hW, hR]

/-- C9, the claim as stated fails: with capture enabled, on a file system where
the directory cannot be created the flush fails, both pipe closes succeed, and
`Close` returns nil. -/
theorem Close_flush_error_dropped :
    ({ fileWriter := some [1, 2, 3], writer := [], reader := ⟨[], none⟩ } :
        Converter (List Byte) (List (List Byte))).fileWriter ≠ none ∧
      (({ fileWriter := some [1, 2, 3], writer := [], reader := ⟨[], none⟩ } :
        Converter (List Byte) (List (List Byte))).writeToFile readOnlyFs bytesBuffer).1
          = some "mkdir fixtures: read-only file system" ∧
      (({ fileWriter := some [1, 2, 3], writer := [], reader := ⟨[], none⟩ } :
        Converter (List Byte) (List (List Byte))).Close readOnlyFs bytesBuffer recorder).err
          = none := by
  decide

/-- C9 as amended: when capture is enabled and the flush fails during `Close`,
the flush error is dropped; `Close` returns the same error as on a file system
where the flush succeeds, which is nil exactly when both pipe closes succeed. -/
theorem Close_ignores_flush {φ ω : Type} (fs : FileSystem) (fw : Sink φ) (w : WriteCloser ω)
    (c : Converter φ ω) (b : φ) (err : Error) (hsink : c.fileWriter = some b)
    (hflush : (c.writeToFile fs fw).1 = some err) :
    (c.Close fs fw w).err = (c.Close goodFs fw w).err ∧
      ((c.Close fs fw w).err = none ↔
        (w.Close c.writer).1 = none ∧ c.reader.Close.1 = none) := by
  cases hW : (w.Close c.writer).1 <;> cases hR : c.reader.Close.1 <;>
    simp [Converter.Close, hW, hR]

theorem Close_ignores_flush_witness :
    (({ fileWriter := some [1, 2, 3], writer := [], reader := ⟨[], some "closed"⟩ } :
        Converter (List Byte) (List (List Byte))).writeToFile readOnlyFs bytesBuffer).1
          = some "mkdir fixtures: read-only file system" ∧
      (({ fileWriter := some [1, 2, 3], writer := [], reader := ⟨[], some "closed"⟩ } :
        Converter (List Byte) (List (List Byte))).Close readOnlyFs bytesBuffer recorder).err
          = (({ fileWriter := some [1, 2, 3], writer := [], reader := ⟨[], some "closed"⟩ } :
        Converter (List Byte) (List (List Byte))).Close goodFs bytesBuffer recorder).err :=
  ⟨rfl,
    (Close_ignores_flush readOnlyFs bytesBuffer recorder
      { fileWriter := some [1, 2, 3], writer := [], reader := ⟨[], some "closed"⟩ }
      [1, 2, 3] "mkdir fixtures: read-only file system" rfl rfl).1⟩

theorem writeToFile_no_pipe_close {φ ω : Type} (fs : FileSystem) (fw : Sink φ)
    (c : Converter φ ω) :
    (c.writeToFile fs fw).2.filter Action.isPipeClose = [] := by
  unfold Converter.writeToFile
  cases c.fileWriter <;> cases fs.mkdirAll <;> cases fs.openFile <;>
    simp [Action.isPipeClose]
  split <;> simp [Action.isPipeClose]

/-- C10: every call of `Close` runs the flush, then closes the writer, then the
reader, and nothing else; so the pipe closes among its calls are exactly one
close of the writer followed by one close of the reader, whatever the flush and
the writer close returned, and each pipe is left as its one close leaves it.
When the capture buffer was not configured, the flush makes no call at all and
returns nil. -/
theorem Close_teardown {φ ω : Type} (fs : FileSystem) (fw : Sink φ) (w : WriteCloser ω)
    (c : Converter φ ω) :
    (c.Close fs fw w).actions
        = (c.writeToFile fs fw).2 ++ [Action.writerClose, Action.readerClose] ∧
      (c.Close fs fw w).actions.filter Action.isPipeClose
        = [Action.writerClose, Action.readerClose] ∧
      (c.Close fs fw w).conv.writer = (w.Close c.writer).2 ∧
      (c.Close fs fw w).conv.reader = c.reader.Close.2 ∧
      (c.fileWriter = none → c.writeToFile fs fw = (none, [])) := by
  have hact : (c.Close fs fw w).actions
      = (c.writeToFile fs fw).2 ++ [Action.writerClose, Action.readerClose] := by
    unfold Converter.Close
    simp only
    split_ifs <;> rfl
  refine ⟨hact, ?_, ?_, ?_, ?_⟩
  · rw [hact, List.filter_append, writeToFile_no_pipe_close]
    rfl
  · unfold Converter.Close
    simp only
    split_ifs <;> rfl
  · unfold Converter.Close
    simp only
    split_ifs <;> rfl
  · intro h
    simp [Converter.writeToFile, h]

theorem Close_teardown_witness :
    ({ fileWriter := none, writer := [], reader := ⟨[], none⟩ } :
        Converter (List Byte) (List (List Byte))).fileWriter = none ∧
      ({ fileWriter := none, writer := [], reader := ⟨[], none⟩ } :
        Converter (List Byte) (List (List Byte))).writeToFile readOnlyFs bytesBuffer
          = (none, []) ∧
      (({ fileWriter := some [7], writer := [], reader := ⟨[], none⟩ } :
        Converter (List Byte) (List (List Byte))).Close readOnlyFs bytesBuffer shortWriter).actions
          = [Action.mkdirAll "fixtures" 0o755, Action.writerClose, Action.readerClose] :=
  ⟨rfl,
    (Close_teardown readOnlyFs bytesBuffer shortWriter
      { fileWriter := none, writer := [], reader := ⟨[], none⟩ }).2.2.2.2 rfl,
    (Close_teardown readOnlyFs bytesBuffer shortWriter
      { fileWriter := some [7], writer := [], reader := ⟨[], none⟩ }).1⟩


/-! ## Reading from the pipe -/

theorem stream_append (xs ys : List ReadEvent) : stream (xs ++ ys) = stream xs ++ stream ys := by
  induction xs with
  | nil => rfl
  | cons e es ih => cases e <;> simp [stream, ih]

theorem stream_data (cs : List (List Byte)) : stream (cs.map ReadEvent.data) = cs.flatten := by
  induction cs with
  | nil => rfl
  | cons c cs ih => simp [stream, ih]

/-- One `Read` hands over the front of the stream, never more than fits. -/
theorem Pipe.Read_stream (r : Pipe) (room : Nat) :
    stream r.pending = (r.Read room).1.1 ++ stream (r.Read room).2.pending ∧
      (r.Read room).1.1.length ≤ room ∧ (r.Read room).2.closeErr = r.closeErr := by
  unfold Pipe.Read
  rcases hp : r.pending with _ | ⟨e, rest⟩
  · simp [hp, stream]
  · cases e with
    | fail err => simp [stream]
    | data c =>
      by_cases hc : c.length ≤ room
      · simp [hc, stream]
      · simp only [hc, if_false, stream]
        refine ⟨?_, ?_, trivial⟩
        · rw [← List.append_assoc, List.take_append_drop]
        · simp only [List.length_take]
          omega

/-- One `Read` fails, or takes an event off the pipe, or fills the room it has. -/
theorem Pipe.Read_progress (r : Pipe) (room : Nat) :
    (r.Read room).1.2 ≠ none ∨ (r.Read room).2.pending.length < r.pending.length ∨
      (r.Read room).1.1.length = room := by
  unfold Pipe.Read
  rcases hp : r.pending with _ | ⟨e, rest⟩
  · simp
  · cases e with
    | fail err => simp
    | data c =>
      by_cases hc : c.length ≤ room
      · simp [hc]
      · simp only [hc, if_false, List.length_take]
        right; right
        omega

theorem readLoop_done (min fuel : Nat) (st : ReadState) (h : ¬ (st.n < min ∧ st.err = none)) :
    readLoop min fuel st = st := by
  cases fuel with
  | zero => rfl
  | succ f => simp only [readLoop, h, if_false]

theorem readLoop_step (min fuel : Nat) (st : ReadState) (h : st.n < min ∧ st.err = none) :
    readLoop min (fuel + 1) st =
      readLoop min fuel
        { buf := store st.buf st.n (st.reader.Read (st.buf.length - st.n)).1.1
          n := st.n + (st.reader.Read (st.buf.length - st.n)).1.1.length
          err := (st.reader.Read (st.buf.length - st.n)).1.2
          reader := (st.reader.Read (st.buf.length - st.n)).2 } := by
  simp only [readLoop, h, and_self, if_true]

theorem store_length (buf : List Byte) (off : Nat) (chunk : List Byte)
    (h : off + chunk.length ≤ buf.length) : (store buf off chunk).length = buf.length := by
  simp only [store, List.length_append, List.length_take, List.length_drop]
  omega

/-- The loop of `ReadAtLeast` copies the front of the stream into the buffer
from offset `n` on, and leaves the rest of the buffer and of the stream alone. -/
theorem readLoop_spec (min : Nat) : ∀ (fuel : Nat) (st : ReadState), st.n ≤ st.buf.length →
    st.n ≤ (readLoop min fuel st).n ∧
      (readLoop min fuel st).n ≤ st.buf.length ∧
      (readLoop min fuel st).n - st.n ≤ (stream st.reader.pending).length ∧
      (readLoop min fuel st).buf =
        st.buf.take st.n ++ (stream st.reader.pending).take ((readLoop min fuel st).n - st.n)
          ++ st.buf.drop (readLoop min fuel st).n ∧
      stream (readLoop min fuel st).reader.pending =
        (stream st.reader.pending).drop ((readLoop min fuel st).n - st.n) ∧
      (readLoop min fuel st).reader.closeErr = st.reader.closeErr := by
  intro fuel
  induction fuel with
  | zero =>
    intro st hn
    simpa [readLoop] using hn
  | succ f ih =>
    intro st hn
    by_cases hc : st.n < min ∧ st.err = none
    · rw [readLoop_step min f st hc]
      obtain ⟨hs, hl, hce⟩ := Pipe.Read_stream st.reader (st.buf.length - st.n)
      generalize st.reader.Read (st.buf.length - st.n) = res at hs hl hce
      have hlen : (store st.buf st.n res.1.1).length = st.buf.length :=
        store_length _ _ _ (by omega)
      have h1 := ih
        { buf := store st.buf st.n res.1.1, n := st.n + res.1.1.length, err := res.1.2,
          reader := res.2 } (by simp only [hlen]; omega)
      simp only [hlen] at h1
      obtain ⟨a1, a2, a3, a4, a5, a6⟩ := h1
      generalize (readLoop min f
        { buf := store st.buf st.n res.1.1, n := st.n + res.1.1.length, err := res.1.2,
          reader := res.2 }) = fin at a1 a2 a3 a4 a5 a6
      have hk : fin.n - st.n = res.1.1.length + (fin.n - (st.n + res.1.1.length)) := by omega
      refine ⟨by omega, a2, ?_, ?_, ?_, by rw [a6, hce]⟩
      · rw [hs, List.length_append]; omega
      · rw [a4, hs, hk, List.take_append]
        have t1 : (store st.buf st.n res.1.1).take (st.n + res.1.1.length)
            = st.buf.take st.n ++ res.1.1 := by
          have : st.n + res.1.1.length = (st.buf.take st.n ++ res.1.1).length := by
            simp only [List.length_append, List.length_take]; omega
          unfold store
          rw [this, List.take_left]
        have t2 : (store st.buf st.n res.1.1).drop fin.n = st.buf.drop fin.n := by
          have e1 : fin.n = (st.buf.take st.n ++ res.1.1).length
              + (fin.n - (st.n + res.1.1.length)) := by
            simp only [List.length_append, List.length_take]; omega
          unfold store
          rw [e1, List.drop_append, List.drop_drop, ← e1]
          congr 1
          omega
        rw [t1, t2]
        simp only [List.append_assoc]
      · rw [a5, hs, hk, List.drop_append]
    · rw [readLoop_done min (f + 1) st hc]
      simpa using hn

/-- The fuel given to the loop of `ReadAtLeast` is never used up: the loop stops
because its condition `n < min && err == nil` has become false. -/
theorem readLoop_exit (min : Nat) : ∀ (fuel : Nat) (st : ReadState),
    st.n ≤ st.buf.length → min ≤ st.buf.length →
    (st.reader.pending.length < fuel ∨ ¬ (st.n < min ∧ st.err = none)) →
    ¬ ((readLoop min fuel st).n < min ∧ (readLoop min fuel st).err = none) := by
  intro fuel
  induction fuel with
  | zero =>
    intro st _ _ h
    rcases h with h | h
    · omega
    · simpa [readLoop] using h
  | succ f ih =>
    intro st hn hmin h
    by_cases hc : st.n < min ∧ st.err = none
    · rw [readLoop_step min f st hc]
      obtain ⟨_, hl, _⟩ := Pipe.Read_stream st.reader (st.buf.length - st.n)
      have hp := Pipe.Read_progress st.reader (st.buf.length - st.n)
      generalize st.reader.Read (st.buf.length - st.n) = res at hl hp
      have hlen : (store st.buf st.n res.1.1).length = st.buf.length :=
        store_length _ _ _ (by omega)
      apply ih
      · simp only [hlen]; omega
      · simp only [hlen]; exact hmin
      · simp only
        rcases h with h | h
        · rcases hp with hp | hp | hp
          · right; intro hh; exact hp hh.2
          · left; omega
          · right; intro hh; omega
        · exact absurd hc h
    · rw [readLoop_done min (f + 1) st hc]
      exact hc

theorem ReadFull_exit (r : Pipe) (buf : List Byte) :
    ¬ ((readLoop buf.length (r.pending.length + 1)
          { buf := buf, n := 0, err := none, reader := r }).n < buf.length ∧
        (readLoop buf.length (r.pending.length + 1)
          { buf := buf, n := 0, err := none, reader := r }).err = none) :=
  readLoop_exit buf.length (r.pending.length + 1) _ (Nat.zero_le _) (Nat.le_refl _)
    (Or.inl (Nat.lt_succ_self _))

/-- What `ReadFull` returns on any pipe: the buffer keeps its length, its first
`n` bytes are the front of the stream, the bytes after them are untouched, and
a returned error means that fewer bytes than the buffer holds were read. -/
theorem ReadFull_spec (r : Pipe) (buf : List Byte) :
    (ReadFull r buf).buf.length = buf.length ∧
      (ReadFull r buf).n ≤ buf.length ∧
      (ReadFull r buf).n ≤ (stream r.pending).length ∧
      (ReadFull r buf).buf = (stream r.pending).take (ReadFull r buf).n
        ++ buf.drop (ReadFull r buf).n ∧
      stream (ReadFull r buf).reader.pending = (stream r.pending).drop (ReadFull r buf).n ∧
      (ReadFull r buf).reader.closeErr = r.closeErr ∧
      ((ReadFull r buf).err = none ↔ (ReadFull r buf).n = buf.length) := by
  have h := readLoop_spec buf.length (r.pending.length + 1)
    { buf := buf, n := 0, err := none, reader := r } (Nat.zero_le _)
  have hx := ReadFull_exit r buf
  simp only [ReadFull, ReadAtLeast, Nat.lt_irrefl, if_false]
  generalize (readLoop buf.length (r.pending.length + 1)
    { buf := buf, n := 0, err := none, reader := r }) = fin at h hx
  simp only [Nat.sub_zero, List.take_zero, List.nil_append] at h
  obtain ⟨_, a2, a3, a4, a5, a6⟩ := h
  refine ⟨?_, a2, a3, a4, a5, a6, ?_⟩
  · rw [a4]
    simp only [List.length_append, List.length_take, List.length_drop]
    omega
  · by_cases hge : fin.n ≥ buf.length
    · simp only [hge, if_true, true_iff]
      omega
    · have hne : fin.err ≠ none := fun he => hx ⟨by omega, he⟩
      have hlt : fin.n ≠ buf.length := by omega
      simp only [hge, if_false, hlt, iff_false]
      split_ifs
      · simp
      · exact hne


/-- While the pipe holds enough data ahead of any failure, the loop of
`ReadAtLeast` fills the buffer without an error and leaves the data that
follows in the pipe. -/
theorem readLoop_full (rest : List ReadEvent) (cerr : Option Error) (N : Nat) :
    ∀ (cs : List (List Byte)) (fuel : Nat) (st : ReadState),
      st.reader = ⟨cs.map ReadEvent.data ++ rest, cerr⟩ → st.err = none →
      st.buf.length = N → st.n ≤ N → N - st.n ≤ cs.flatten.length → cs.length < fuel →
      (readLoop N fuel st).n = N ∧ (readLoop N fuel st).err = none ∧
        ∃ cs2 : List (List Byte),
          (readLoop N fuel st).reader = ⟨cs2.map ReadEvent.data ++ rest, cerr⟩ ∧
            cs2.flatten = cs.flatten.drop (N - st.n) := by
  intro cs
  induction cs with
  | nil =>
    intro fuel st hr he _ hn hroom _
    have hN : st.n = N := by simp at hroom; omega
    rw [readLoop_done N fuel st (by omega)]
    exact ⟨hN, he, [], by simpa using hr, by simp⟩
  | cons c cs ih =>
    intro fuel st hr he hb hn hroom hf
    by_cases hlt : st.n < N
    · obtain ⟨f, rfl⟩ : ∃ f, fuel = f + 1 := ⟨fuel - 1, by omega⟩
      rw [readLoop_step N f st ⟨hlt, he⟩]
      by_cases hfit : c.length ≤ N - st.n
      · have hread : st.reader.Read (st.buf.length - st.n)
            = ((c, none), ⟨cs.map ReadEvent.data ++ rest, cerr⟩) := by
          simp [Pipe.Read, hr, hb, hfit]
        rw [hread]
        have h := ih f
          { buf := store st.buf st.n c, n := st.n + c.length, err := none,
            reader := ⟨cs.map ReadEvent.data ++ rest, cerr⟩ } rfl rfl
          (by simp only; rw [store_length _ _ _ (by omega)]; exact hb)
          (by simp only; omega)
          (by simp only [List.flatten_cons, List.length_append] at hroom ⊢; omega)
          (by simp only [List.length_cons] at hf; omega)
        obtain ⟨h1, h2, cs2, h3, h4⟩ := h
        refine ⟨h1, h2, cs2, h3, ?_⟩
        rw [h4, List.flatten_cons, List.drop_append_eq_append_drop,
          List.drop_eq_nil_of_le hfit, List.nil_append]
        congr 1
        simp only
        omega
      · have hread : st.reader.Read (st.buf.length - st.n)
            = ((c.take (N - st.n), none),
                ⟨ReadEvent.data (c.drop (N - st.n)) :: (cs.map ReadEvent.data ++ rest), cerr⟩) := by
          simp [Pipe.Read, hr, hb, hfit]
        rw [hread]
        have hlen : (c.take (N - st.n)).length = N - st.n := by
          simp only [List.length_take]; omega
        rw [readLoop_done N f _ (by simp only [hlen]; omega)]
        refine ⟨by simp only [hlen]; omega, rfl, c.drop (N - st.n) :: cs, by simp, ?_⟩
        rw [List.flatten_cons, List.flatten_cons, List.drop_append_of_le_length (by omega)]
    · have hN : st.n = N := by omega
      rw [readLoop_done N fuel st (by omega)]
      exact ⟨hN, he, c :: cs, by simpa using hr, by simp [hN]⟩

/-- A `ReadFull` that finds enough data to fill the buffer ahead of any failure
returns that data, without an error, and leaves what follows in the pipe. -/
theorem ReadFull_full (cs : List (List Byte)) (rest : List ReadEvent) (cerr : Option Error)
    (buf : List Byte) (hlen : buf.length ≤ cs.flatten.length) :
    (ReadFull ⟨cs.map ReadEvent.data ++ rest, cerr⟩ buf).n = buf.length ∧
      (ReadFull ⟨cs.map ReadEvent.data ++ rest, cerr⟩ buf).err = none ∧
      (ReadFull ⟨cs.map ReadEvent.data ++ rest, cerr⟩ buf).buf = cs.flatten.take buf.length ∧
      ∃ cs2 : List (List Byte),
        (ReadFull ⟨cs.map ReadEvent.data ++ rest, cerr⟩ buf).reader
            = ⟨cs2.map ReadEvent.data ++ rest, cerr⟩ ∧
          cs2.flatten = cs.flatten.drop buf.length := by
  obtain ⟨_, _, _, s4, _, _, s7⟩ := ReadFull_spec ⟨cs.map ReadEvent.data ++ rest, cerr⟩ buf
  have h := readLoop_full rest cerr buf.length cs
    ((cs.map ReadEvent.data ++ rest).length + 1)
    { buf := buf, n := 0, err := none, reader := ⟨cs.map ReadEvent.data ++ rest, cerr⟩ }
    rfl rfl rfl (Nat.zero_le _) (by simpa using hlen)
    (by simp only [List.length_append, List.length_map]; omega)
  obtain ⟨h1, _, cs2, h3, h4⟩ := h
  have hn : (ReadFull ⟨cs.map ReadEvent.data ++ rest, cerr⟩ buf).n = buf.length := by
    simp only [ReadFull, ReadAtLeast, Nat.lt_irrefl, if_false]
    exact h1
  have hr : (ReadFull ⟨cs.map ReadEvent.data ++ rest, cerr⟩ buf).reader
      = ⟨cs2.map ReadEvent.data ++ rest, cerr⟩ := by
    simp only [ReadFull, ReadAtLeast, Nat.lt_irrefl, if_false]
    exact h3
  refine ⟨hn, s7.2 hn, ?_, cs2, hr, by simpa using h4⟩
  rw [s4, hn, List.drop_length, List.append_nil, stream_append, stream_data,
    List.take_append_of_le_length hlen]

/-! ## The frame reader loop -/

theorem make_length (n : Nat) : (make n).length = n := by
  simp [make]

theorem make_drop (n k : Nat) : (make n).drop k = make (n - k) := by
  simp [make]

theorem bufferSize_eq : bufferSize = 2073600 := by
  decide

theorem sends_append (xs ys : List Event) : sends (xs ++ ys) = sends xs ++ sends ys := by
  induction xs with
  | nil => rfl
  | cons e es ih => cases e <;> simp [sends, ih]

theorem mem_of_mem_sends (buf : List Byte) (xs : List Event) (h : buf ∈ sends xs) :
    Event.send buf ∈ xs := by
  induction xs with
  | nil => simp [sends] at h
  | cons e es ih =>
    cases e <;> simp only [sends, List.mem_cons] at h ⊢
    case send b =>
      rcases h with h | h
      · left; rw [h]
      · right; exact ih h
    all_goals (right; exact ih h)

/-- One uncancelled iteration: what it appends to the trace. -/
theorem frame_trace (size : Nat) (st : LoopState) :
    ∃ logged : List Event,
      (frame size st).trace = st.trace ++ ([Event.read (ReadFull st.reader (make size)).n
          (ReadFull st.reader (make size)).err] ++ logged
            ++ [Event.send (ReadFull st.reader (make size)).buf]) ∧
        sends logged = [] ∧ Event.close ∉ logged := by
  rcases h : (ReadFull st.reader (make size)).err with _ | e
  · exact ⟨[], by simp [frame, h], rfl, by simp⟩
  · exact ⟨[Event.log ("failed reading into buffer " ++ e)], by simp [frame, h], rfl, by simp⟩

theorem frame_sends (size : Nat) (st : LoopState) :
    sends (frame size st).trace
      = sends st.trace ++ [(ReadFull st.reader (make size)).buf] := by
  obtain ⟨logged, ht, hs, _⟩ := frame_trace size st
  rw [ht]
  simp [sends_append, sends, hs]

theorem loop_false (size : Nat) (ctx : List Bool) (st : LoopState) :
    loop size (false :: ctx) st = loop size ctx (frame size st) := rfl

/-- The loop only ever appends to its trace. -/
theorem loop_trace (size : Nat) (ctx : List Bool) :
    ∀ st : LoopState, ∃ more : List Event, (loop size ctx st).trace = st.trace ++ more := by
  induction ctx with
  | nil => intro st; exact ⟨[], by simp [loop]⟩
  | cons d ctx ih =>
    intro st
    cases d with
    | true => exact ⟨[Event.close], rfl⟩
    | false =>
      obtain ⟨more, hm⟩ := ih (frame size st)
      obtain ⟨logged, ht, _, _⟩ := frame_trace size st
      rw [loop_false, hm, ht]
      exact ⟨_, List.append_assoc _ _ _⟩

/-- Uncancelled iterations never return and never close the channel. -/
theorem loop_running (size i : Nat) :
    ∀ st : LoopState, st.returned = false →
      (loop size (List.replicate i false) st).returned = false ∧
        ∃ more : List Event,
          (loop size (List.replicate i false) st).trace = st.trace ++ more ∧
            Event.close ∉ more := by
  induction i with
  | zero => intro st h; exact ⟨h, [], by simp [loop], by simp⟩
  | succ i ih =>
    intro st _
    obtain ⟨h1, more, h2, h3⟩ := ih (frame size st) rfl
    obtain ⟨logged, ht, _, hl⟩ := frame_trace size st
    rw [List.replicate_succ, loop_false]
    refine ⟨h1, ([Event.read (ReadFull st.reader (make size)).n
      (ReadFull st.reader (make size)).err] ++ logged
        ++ [Event.send (ReadFull st.reader (make size)).buf]) ++ more, ?_, ?_⟩
    · rw [h2, ht, List.append_assoc]
    · simp [hl, h3]

/-- The iteration that finds the context cancelled adds the close and nothing
else, and ends the run. -/
theorem loop_cancel (size : Nat) (rest : List Bool) (i : Nat) :
    ∀ st : LoopState,
      loop size (List.replicate i false ++ true :: rest) st =
        { reader := (loop size (List.replicate i false) st).reader
          trace := (loop size (List.replicate i false) st).trace ++ [Event.close]
          returned := true } := by
  induction i with
  | zero => intro st; rfl
  | succ i ih =>
    intro st
    rw [List.replicate_succ, List.cons_append, loop_false, loop_false]
    exact ih (frame size st)

theorem ctx_split (ctx : List Bool) :
    (∃ i, ctx = List.replicate i false) ∨
      ∃ i rest, ctx = List.replicate i false ++ true :: rest := by
  induction ctx with
  | nil => exact Or.inl ⟨0, rfl⟩
  | cons d ctx ih =>
    cases d with
    | true => exact Or.inr ⟨0, ctx, rfl⟩
    | false =>
      rcases ih with ⟨i, hi⟩ | ⟨i, rest, hi⟩
      · exact Or.inl ⟨i + 1, by rw [hi, List.replicate_succ]⟩
      · exact Or.inr ⟨i + 1, rest, by rw [hi, List.replicate_succ, List.cons_append]⟩

theorem close_is_last (t : List Event) (ht : Event.close ∉ t) :
    ∀ a b : List Event, t ++ [Event.close] = a ++ Event.close :: b → b = [] ∧ a = t := by
  induction t with
  | nil =>
    intro a b h
    cases a with
    | nil => simpa using h.symm
    | cons x a => simp at h
  | cons x t ih =>
    intro a b h
    cases a with
    | nil =>
      simp only [List.cons_append, List.nil_append, List.cons.injEq] at h
      exact absurd h.1 (by intro hx; exact ht (by simp [hx]))
    | cons y a =>
      simp only [List.cons_append, List.cons.injEq] at h
      obtain ⟨hb, ha⟩ := ih (fun hm => ht (List.mem_cons_of_mem _ hm)) a b h.2
      exact ⟨hb, by rw [h.1, ha]⟩


theorem loop_nil (size : Nat) (st : LoopState) : loop size [] st = st := rfl

theorem frame_reader (size : Nat) (st : LoopState) :
    (frame size st).reader = (ReadFull st.reader (make size)).reader := rfl

theorem frame_returned (size : Nat) (st : LoopState) : (frame size st).returned = false := rfl

/-- Every frame the loop sends has the length of the buffer it allocates. -/
theorem loop_sends_length (size : Nat) (ctx : List Bool) :
    ∀ st : LoopState, (∀ b ∈ sends st.trace, b.length = size) →
      ∀ b ∈ sends (loop size ctx st).trace, b.length = size := by
  induction ctx with
  | nil => intro st h; simpa [loop] using h
  | cons d ctx ih =>
    intro st h
    cases d with
    | true =>
      intro b hb
      have : (loop size (true :: ctx) st).trace = st.trace ++ [Event.close] := rfl
      rw [this, sends_append] at hb
      simp only [sends, List.append_nil] at hb
      exact h b hb
    | false =>
      rw [loop_false]
      apply ih
      intro b hb
      rw [frame_sends, List.mem_append, List.mem_singleton] at hb
      rcases hb with hb | hb
      · exact h b hb
      · rw [hb, (ReadFull_spec st.reader (make size)).1, make_length]

/-- While the pipe holds whole frames of data ahead of any failure, the
uncancelled iterations send them one after the other. -/
theorem loop_frames (size : Nat) (rest : List ReadEvent) (cerr : Option Error) (ctx : List Bool) :
    ∀ (k : Nat) (cs : List (List Byte)) (st : LoopState),
      st.reader = ⟨cs.map ReadEvent.data ++ rest, cerr⟩ → (k + 1) * size ≤ cs.flatten.length →
      (sends (loop size (List.replicate (k + 1) false ++ ctx) st).trace)[(sends st.trace).length + k]?
        = some ((cs.flatten.drop (k * size)).take size) := by
  intro k
  induction k with
  | zero =>
    intro cs st hr hlen
    have hsz : (make size).length ≤ cs.flatten.length := by
      rw [make_length]; simpa using hlen
    obtain ⟨_, _, hbuf, _⟩ := ReadFull_full cs rest cerr (make size) hsz
    obtain ⟨more, hm⟩ := loop_trace size ctx (frame size st)
    rw [List.replicate_succ, List.replicate_zero, List.cons_append, List.nil_append, loop_false,
      hm, sends_append, frame_sends, hr, hbuf, make_length, Nat.add_zero, List.append_assoc,
      List.getElem?_append_right (Nat.le_refl _), Nat.sub_self]
    simp
  | succ k ih =>
    intro cs st hr hlen
    have hmul : (k + 1 + 1) * size = (k + 1) * size + size := Nat.succ_mul _ _
    have hsz : (make size).length ≤ cs.flatten.length := by
      rw [make_length]; omega
    obtain ⟨_, _, _, cs2, hr2, hf2⟩ := ReadFull_full cs rest cerr (make size) hsz
    rw [make_length] at hf2
    have hr3 : (frame size st).reader = ⟨cs2.map ReadEvent.data ++ rest, cerr⟩ := by
      rw [frame_reader, hr, hr2]
    have h := ih cs2 (frame size st) hr3 (by
      rw [hf2, List.length_drop]; omega)
    rw [List.replicate_succ, List.cons_append, loop_false]
    rw [frame_sends, List.length_append, List.length_singleton, hf2, List.drop_drop] at h
    have e1 : (sends st.trace).length + (k + 1) = (sends st.trace).length + 1 + k := by omega
    have e2 : (k + 1) * size = size + k * size := by rw [Nat.succ_mul]; omega
    rw [e1, e2]
    exact h

/-- A `ReadFull` that finds one short chunk and then the end of the stream. -/
theorem ReadFull_short (c : List Byte) (cerr : Option Error) (buf : List Byte)
    (h1 : 0 < c.length) (h2 : c.length < buf.length) :
    (ReadFull ⟨[ReadEvent.data c], cerr⟩ buf).err = some ErrUnexpectedEOF ∧
      (ReadFull ⟨[ReadEvent.data c], cerr⟩ buf).n = c.length := by
  have hpos : 0 < buf.length := by omega
  have hread1 : Pipe.Read ⟨[ReadEvent.data c], cerr⟩ (buf.length - 0)
      = ((c, none), ⟨[], cerr⟩) := by
    simp [Pipe.Read, Nat.le_of_lt h2]
  have hread2 : ∀ room, Pipe.Read ⟨[], cerr⟩ room = (([], some EOF), ⟨[], cerr⟩) := by
    intro room; rfl
  have hloop : readLoop buf.length (([ReadEvent.data c] : List ReadEvent).length + 1)
      { buf := buf, n := 0, err := none, reader := ⟨[ReadEvent.data c], cerr⟩ }
      = { buf := store (store buf 0 c) (0 + c.length) [], n := 0 + c.length + 0,
          err := some EOF, reader := ⟨[], cerr⟩ } := by
    rw [List.length_singleton, readLoop_step _ _ _ ⟨hpos, rfl⟩]
    simp only [hread1]
    rw [readLoop_step _ _ _ ⟨by simpa using h2, rfl⟩]
    simp only [hread2]
    rfl
  simp only [ReadFull, ReadAtLeast, Nat.lt_irrefl, if_false, hloop]
  have hnot : ¬ (0 + c.length + 0 ≥ buf.length) := by omega
  have hgt : 0 + c.length + 0 > 0 := by omega
  simp only [hnot, hgt, if_false, true_and, if_true, and_true]
  simp

/-- Three frames of `n` bytes each make a stream of three frames. -/
theorem three_frames_length (n : Nat) (a b c : Byte) :
    (0 + 1) * n ≤
        ([List.replicate n a, List.replicate n b, List.replicate n c] :
          List (List Byte)).flatten.length ∧
      (1 + 1) * n ≤
        ([List.replicate n a, List.replicate n b, List.replicate n c] :
          List (List Byte)).flatten.length ∧
      (2 + 1) * n ≤
        ([List.replicate n a, List.replicate n b, List.replicate n c] :
          List (List Byte)).flatten.length := by
  simp only [List.flatten_cons, List.flatten_nil, List.length_append, List.length_replicate,
    List.length_nil]
  omega

/-- The three frames cut out of a stream of three constant frames. -/
theorem three_frames_slices (n : Nat) (a b c : Byte) :
    ((([List.replicate n a, List.replicate n b, List.replicate n c] :
        List (List Byte)).flatten.drop (0 * n)).take n = List.replicate n a) ∧
      ((([List.replicate n a, List.replicate n b, List.replicate n c] :
        List (List Byte)).flatten.drop (1 * n)).take n = List.replicate n b) ∧
      ((([List.replicate n a, List.replicate n b, List.replicate n c] :
        List (List Byte)).flatten.drop (2 * n)).take n = List.replicate n c) := by
  have e2 : 2 * n - n = n := by omega
  have e3 : n - 2 * n = 0 := by omega
  simp [List.take_append_eq_append_take, List.drop_append_eq_append_drop, e2, e3]


/-- A `ReadFull` whose first read fails: nothing is stored in the buffer, the
failure is returned and only the failed read is taken off the pipe. -/
theorem ReadFull_fail (e : Error) (rest : List ReadEvent) (cerr : Option Error)
    (buf : List Byte) (hpos : 0 < buf.length) :
    (ReadFull ⟨ReadEvent.fail e :: rest, cerr⟩ buf).buf = buf ∧
      (ReadFull ⟨ReadEvent.fail e :: rest, cerr⟩ buf).n = 0 ∧
      (ReadFull ⟨ReadEvent.fail e :: rest, cerr⟩ buf).err = some e ∧
      (ReadFull ⟨ReadEvent.fail e :: rest, cerr⟩ buf).reader = ⟨rest, cerr⟩ := by
  have hread : ∀ room, Pipe.Read ⟨ReadEvent.fail e :: rest, cerr⟩ room
      = (([], some e), ⟨rest, cerr⟩) := by
    intro room; rfl
  have hloop : readLoop buf.length ((ReadEvent.fail e :: rest).length + 1)
      { buf := buf, n := 0, err := none, reader := ⟨ReadEvent.fail e :: rest, cerr⟩ }
      = { buf := store buf 0 [], n := 0 + 0, err := some e, reader := ⟨rest, cerr⟩ } := by
    rw [List.length_cons, readLoop_step _ _ _ ⟨hpos, rfl⟩]
    simp only [hread]
    rw [readLoop_done _ _ _ (by simp)]
    rfl
  have hnot : ¬ (0 + 0 ≥ buf.length) := by omega
  simp only [ReadFull, ReadAtLeast, Nat.lt_irrefl, if_false, hloop, hnot]
  simp [store]

/-- After a first read that fails, the first frame sent is the untouched
buffer of zeros, whatever data the pipe holds behind the failure. -/
theorem loop_failed_first_read (size : Nat) (hsize : 0 < size) (e : Error)
    (rest : List ReadEvent) (cerr : Option Error) :
    (sends (loop size [false]
        (LoopState.init ⟨ReadEvent.fail e :: rest, cerr⟩)).trace)[0]? = some (make size) := by
  have hbuf := (ReadFull_fail e rest cerr (make size) (by rw [make_length]; exact hsize)).1
  have hr : (LoopState.init ⟨ReadEvent.fail e :: rest, cerr⟩).reader
      = ⟨ReadEvent.fail e :: rest, cerr⟩ := rfl
  have ht : sends (LoopState.init ⟨ReadEvent.fail e :: rest, cerr⟩).trace = [] := rfl
  rw [loop_false, loop_nil, frame_sends, hr, hbuf, ht]
  rfl

/-- A frame of zeros is not the first frame of a stream of ones. -/
theorem zeros_ne_ones_slice (n : Nat) (hn : 0 < n) (e : Error) :
    (0 + 1) * n ≤ (stream [ReadEvent.fail e, ReadEvent.data (List.replicate n 1)]).length ∧
      make n ≠ ((stream [ReadEvent.fail e, ReadEvent.data (List.replicate n 1)]).drop
        (0 * n)).take n := by
  obtain ⟨m, rfl⟩ : ∃ m, n = m + 1 := ⟨n - 1, by omega⟩
  have hs : ((stream [ReadEvent.fail e, ReadEvent.data (List.replicate (m + 1) 1)]).drop
      (0 * (m + 1))).take (m + 1) = List.replicate (m + 1) 1 := by
    simp [stream]
  refine ⟨by simp [stream], ?_⟩
  rw [hs]
  intro h
  have hhead := congrArg List.head? h
  simp [make, List.replicate_succ] at hhead

/-! ## The claims on the frame reader loop -/

/-- C5: `bufferSize` is `frameX * frameY * 3 = 960 * 720 * 3 = 2,073,600`, and
every buffer that `pipeToChan` sends on the channel has exactly this length,
whatever the reader does (full read, short read, end of stream, read error). -/
theorem frames_have_bufferSize :
    bufferSize = frameX * frameY * 3 ∧ frameX = 960 ∧ frameY = 720 ∧ bufferSize = 2073600 ∧
      ∀ (ctx : List Bool) (reader : Pipe) (buf : List Byte),
        buf ∈ sends (pipeToChan ctx (LoopState.init reader)).trace → buf.length = bufferSize := by
  refine ⟨rfl, rfl, rfl, bufferSize_eq, ?_⟩
  intro ctx reader buf hbuf
  unfold pipeToChan at hbuf
  exact loop_sends_length bufferSize ctx (LoopState.init reader)
    (by intro b hb; simp [LoopState.init, sends] at hb) buf hbuf

theorem frames_have_bufferSize_witness :
    (ReadFull ⟨[ReadEvent.data [1, 2, 3]], none⟩ (make bufferSize)).buf
        ∈ sends (pipeToChan [false] (LoopState.init ⟨[ReadEvent.data [1, 2, 3]], none⟩)).trace ∧
      (ReadFull ⟨[ReadEvent.data [1, 2, 3]], none⟩ (make bufferSize)).buf.length = bufferSize :=
  have hmem : (ReadFull ⟨[ReadEvent.data [1, 2, 3]], none⟩ (make bufferSize)).buf
      ∈ sends (pipeToChan [false] (LoopState.init ⟨[ReadEvent.data [1, 2, 3]], none⟩)).trace := by
    unfold pipeToChan
    rw [loop_false, loop_nil, frame_sends]
    exact List.mem_append_right _ (List.mem_singleton.mpr rfl)
  ⟨hmem, frames_have_bufferSize.2.2.2.2 [false] ⟨[ReadEvent.data [1, 2, 3]], none⟩ _ hmem⟩

/-- C6, the claim as stated fails: a reader whose first read fails and which
then delivers the stream `s` of `bufferSize` ones produces `s`, the loop is not
cancelled before its first iteration, and `(0 + 1) * bufferSize` is the length
of `s`; yet the first buffer sent is the frame of zeros of the failed read,
not the slice of `s` from offset `0` to `bufferSize`. -/
theorem frames_shift_after_failed_read :
    (0 + 1) * bufferSize ≤
        (stream [ReadEvent.fail "boom",
          ReadEvent.data (List.replicate bufferSize 1)]).length ∧
      (sends (pipeToChan [false]
        (LoopState.init
          ⟨[ReadEvent.fail "boom", ReadEvent.data (List.replicate bufferSize 1)],
            none⟩)).trace)[0]? = some (make bufferSize) ∧
      make bufferSize ≠
        ((stream [ReadEvent.fail "boom",
          ReadEvent.data (List.replicate bufferSize 1)]).drop (0 * bufferSize)).take
            bufferSize :=
  have hpos : 0 < bufferSize := by rw [bufferSize_eq]; decide
  ⟨(zeros_ne_ones_slice bufferSize hpos "boom").1,
    loop_failed_first_read bufferSize hpos "boom"
      [ReadEvent.data (List.replicate bufferSize 1)] none,
    (zeros_ne_ones_slice bufferSize hpos "boom").2⟩

/-- C6 as amended: frames are delivered in stream order as long as no read has
failed.  When the reader delivers the byte stream `s` (as the chunks `chunks`,
in any division, `s` being their concatenation) ahead of any read that fails,
and `(k+1) * bufferSize` is at most the length of `s`, and the first `k+1`
polls find the context not cancelled, then the `(k+1)`-th buffer sent on the
channel is the slice of `s` from offset `k * bufferSize` to
`(k+1) * bufferSize`. -/
theorem frames_in_stream_order (chunks : List (List Byte)) (rest : List ReadEvent)
    (cerr : Option Error) (k : Nat) (ctx : List Bool)
    (hlen : (k + 1) * bufferSize ≤ chunks.flatten.length)
    (hctx : ctx.take (k + 1) = List.replicate (k + 1) false) :
    (sends (pipeToChan ctx
        (LoopState.init ⟨chunks.map ReadEvent.data ++ rest, cerr⟩)).trace)[k]?
      = some ((chunks.flatten.drop (k * bufferSize)).take bufferSize) := by
  have hsplit : ctx = List.replicate (k + 1) false ++ ctx.drop (k + 1) := by
    rw [← hctx, List.take_append_drop]
  have h := loop_frames bufferSize rest cerr (ctx.drop (k + 1)) k chunks
    (LoopState.init ⟨chunks.map ReadEvent.data ++ rest, cerr⟩) rfl hlen
  rw [← hsplit] at h
  have h0 : (sends (LoopState.init ⟨chunks.map ReadEvent.data ++ rest, cerr⟩).trace).length + k
      = k := by
    simp [LoopState.init, sends]
  rw [h0] at h
  unfold pipeToChan
  exact h

theorem frames_in_stream_order_witness :
    (2 + 1) * bufferSize ≤
        ([List.replicate bufferSize 0, List.replicate bufferSize 1,
          List.replicate bufferSize 2] : List (List Byte)).flatten.length ∧
      [false, false, false].take (2 + 1) = List.replicate (2 + 1) false ∧
      (sends (pipeToChan [false, false, false]
        (LoopState.init
          ⟨([List.replicate bufferSize 0, List.replicate bufferSize 1,
              List.replicate bufferSize 2] : List (List Byte)).map ReadEvent.data ++ [],
            none⟩)).trace)[0]? = some (List.replicate bufferSize 0) ∧
      (sends (pipeToChan [false, false, false]
        (LoopState.init
          ⟨([List.replicate bufferSize 0, List.replicate bufferSize 1,
              List.replicate bufferSize 2] : List (List Byte)).map ReadEvent.data ++ [],
            none⟩)).trace)[1]? = some (List.replicate bufferSize 1) ∧
      (sends (pipeToChan [false, false, false]
        (LoopState.init
          ⟨([List.replicate bufferSize 0, List.replicate bufferSize 1,
              List.replicate bufferSize 2] : List (List Byte)).map ReadEvent.data ++ [],
            none⟩)).trace)[2]? = some (List.replicate bufferSize 2) :=
  ⟨(three_frames_length bufferSize 0 1 2).2.2, rfl,
    (frames_in_stream_order
      [List.replicate bufferSize 0, List.replicate bufferSize 1, List.replicate bufferSize 2]
      [] none 0 [false, false, false] (three_frames_length bufferSize 0 1 2).1 rfl).trans
      (congrArg some (three_frames_slices bufferSize 0 1 2).1),
    (frames_in_stream_order
      [List.replicate bufferSize 0, List.replicate bufferSize 1, List.replicate bufferSize 2]
      [] none 1 [false, false, false] (three_frames_length bufferSize 0 1 2).2.1 rfl).trans
      (congrArg some (three_frames_slices bufferSize 0 1 2).2.1),
    (frames_in_stream_order
      [List.replicate bufferSize 0, List.replicate bufferSize 1, List.replicate bufferSize 2]
      [] none 2 [false, false, false] (three_frames_length bufferSize 0 1 2).2.2 rfl).trans
      (congrArg some (three_frames_slices bufferSize 0 1 2).2.2)⟩

/-- C7: when the `ReadFull` of an iteration fails and the context is not found
cancelled, the iteration still reports the read, logs the error and sends its
buffer; the buffer holds the `n < bufferSize` bytes actually read, which are
the next `n` bytes of the stream, followed by zeros (all zeros when `n = 0`);
the channel is not closed and the loop goes on to its next iteration.  However
many further iterations run uncancelled, the loop has not returned and has not
closed the channel. -/
theorem read_error_still_sends (st : LoopState) (ctx : List Bool) (err : Error)
    (hfail : (ReadFull st.reader (make bufferSize)).err = some err) :
    pipeToChan (false :: ctx) st =
        pipeToChan ctx
          { reader := (ReadFull st.reader (make bufferSize)).reader
            trace := st.trace ++
              [Event.read (ReadFull st.reader (make bufferSize)).n (some err),
               Event.log ("failed reading into buffer " ++ err),
               Event.send (ReadFull st.reader (make bufferSize)).buf]
            returned := false } ∧
      (ReadFull st.reader (make bufferSize)).n < bufferSize ∧
      (ReadFull st.reader (make bufferSize)).n ≤ (stream st.reader.pending).length ∧
      (ReadFull st.reader (make bufferSize)).buf
        = (stream st.reader.pending).take (ReadFull st.reader (make bufferSize)).n
            ++ make (bufferSize - (ReadFull st.reader (make bufferSize)).n) ∧
      ∀ m : Nat,
        (pipeToChan (false :: List.replicate m false) st).returned = false ∧
          ∃ more : List Event,
            (pipeToChan (false :: List.replicate m false) st).trace = st.trace ++ more ∧
              Event.close ∉ more := by
  obtain ⟨_, s2, s3, s4, _, _, s7⟩ := ReadFull_spec st.reader (make bufferSize)
  rw [make_length] at s2 s7
  rw [make_drop] at s4
  have hframe : frame bufferSize st =
      { reader := (ReadFull st.reader (make bufferSize)).reader
        trace := st.trace ++
          [Event.read (ReadFull st.reader (make bufferSize)).n (some err),
           Event.log ("failed reading into buffer " ++ err),
           Event.send (ReadFull st.reader (make bufferSize)).buf]
        returned := false } := by
    simp [frame, hfail]
  have hne : (ReadFull st.reader (make bufferSize)).n ≠ bufferSize := by
    intro hn
    rw [s7.2 hn] at hfail
    exact Option.noConfusion hfail
  refine ⟨?_, by omega, s3, s4, ?_⟩
  · unfold pipeToChan
    rw [loop_false, hframe]
  · intro m
    obtain ⟨h1, more, h2, h3⟩ := loop_running bufferSize m (frame bufferSize st) rfl
    unfold pipeToChan
    rw [loop_false]
    refine ⟨h1, [Event.read (ReadFull st.reader (make bufferSize)).n (some err),
      Event.log ("failed reading into buffer " ++ err),
      Event.send (ReadFull st.reader (make bufferSize)).buf] ++ more, ?_, ?_⟩
    · rw [h2, hframe, List.append_assoc]
    · simp [h3]

theorem read_error_still_sends_witness :
    (ReadFull (LoopState.init ⟨[ReadEvent.data [1, 2, 3]], none⟩).reader (make bufferSize)).err
        = some ErrUnexpectedEOF ∧
      (ReadFull (LoopState.init ⟨[ReadEvent.data [1, 2, 3]], none⟩).reader (make bufferSize)).buf
        = (stream (LoopState.init ⟨[ReadEvent.data [1, 2, 3]], none⟩).reader.pending).take
            (ReadFull (LoopState.init ⟨[ReadEvent.data [1, 2, 3]], none⟩).reader
              (make bufferSize)).n
          ++ make (bufferSize -
            (ReadFull (LoopState.init ⟨[ReadEvent.data [1, 2, 3]], none⟩).reader
              (make bufferSize)).n) ∧
      (pipeToChan (false :: List.replicate 1 false)
        (LoopState.init ⟨[ReadEvent.data [1, 2, 3]], none⟩)).returned = false :=
  have hfail : (ReadFull (LoopState.init ⟨[ReadEvent.data [1, 2, 3]], none⟩).reader
      (make bufferSize)).err = some ErrUnexpectedEOF :=
    (ReadFull_short [1, 2, 3] none (make bufferSize) (by decide)
      (by rw [make_length, bufferSize_eq]; decide)).1
  ⟨hfail,
    (read_error_still_sends (LoopState.init ⟨[ReadEvent.data [1, 2, 3]], none⟩) []
      ErrUnexpectedEOF hfail).2.2.2.1,
    ((read_error_still_sends (LoopState.init ⟨[ReadEvent.data [1, 2, 3]], none⟩) []
      ErrUnexpectedEOF hfail).2.2.2.2 1).1⟩

/-- C8: cancellation is the only exit of the loop and closes the channel.  In a
run whose first `i` polls find the context not cancelled and whose next poll
finds it cancelled, that iteration makes no read and no send: to what the `i`
iterations before it have done it adds the close of the channel, leaves the
reader as it was, and the function has returned, whatever polls would follow.
After any number of uncancelled iterations the loop has not returned and the
channel has not been closed.  In every run the loop has returned exactly when a
poll found the context cancelled, and a close of the channel is the last event
of the trace and the only close in it: no frame is sent after it. -/
theorem cancellation_only_exit (reader : Pipe) (i : Nat) (rest : List Bool) :
    (pipeToChan (List.replicate i false ++ true :: rest) (LoopState.init reader)).trace
        = (pipeToChan (List.replicate i false) (LoopState.init reader)).trace ++ [Event.close] ∧
      (pipeToChan (List.replicate i false ++ true :: rest) (LoopState.init reader)).reader
        = (pipeToChan (List.replicate i false) (LoopState.init reader)).reader ∧
      (pipeToChan (List.replicate i false ++ true :: rest) (LoopState.init reader)).returned
        = true ∧
      (pipeToChan (List.replicate i false) (LoopState.init reader)).returned = false ∧
      Event.close ∉ (pipeToChan (List.replicate i false) (LoopState.init reader)).trace ∧
      (∀ ctx : List Bool,
        (pipeToChan ctx (LoopState.init reader)).returned = true ↔ true ∈ ctx) ∧
      (∀ (ctx : List Bool) (a b : List Event),
        (pipeToChan ctx (LoopState.init reader)).trace = a ++ Event.close :: b →
          b = [] ∧ Event.close ∉ a) := by
  have hrun : ∀ j : Nat,
      (loop bufferSize (List.replicate j false) (LoopState.init reader)).returned = false ∧
        Event.close ∉ (loop bufferSize (List.replicate j false) (LoopState.init reader)).trace := by
    intro j
    obtain ⟨h1, more, h2, h3⟩ := loop_running bufferSize j (LoopState.init reader) rfl
    refine ⟨h1, ?_⟩
    rw [h2]
    simpa [LoopState.init] using h3
  unfold pipeToChan
  refine ⟨?_, ?_, ?_, (hrun i).1, (hrun i).2, ?_, ?_⟩
  · rw [loop_cancel]
  · rw [loop_cancel]
  · rw [loop_cancel]
  · intro ctx
    rcases ctx_split ctx with ⟨j, rfl⟩ | ⟨j, more, rfl⟩
    · rw [(hrun j).1]
      simp
    · rw [loop_cancel]
      simp
  · intro ctx a b h
    rcases ctx_split ctx with ⟨j, rfl⟩ | ⟨j, more, rfl⟩
    · exact absurd (by rw [h]; simp) (hrun j).2
    · rw [loop_cancel] at h
      obtain ⟨hb, ha⟩ := close_is_last _ (hrun j).2 a b h
      exact ⟨hb, by rw [ha]; exact (hrun j).2⟩

theorem cancellation_only_exit_witness :
    (pipeToChan (List.replicate 1 false ++ true :: [false])
        (LoopState.init ⟨[ReadEvent.data [1, 2, 3]], none⟩)).trace
        = (pipeToChan (List.replicate 1 false)
            (LoopState.init ⟨[ReadEvent.data [1, 2, 3]], none⟩)).trace ++ [Event.close] ∧
      (([] : List Event) = [] ∧
        Event.close ∉ (pipeToChan (List.replicate 1 false)
          (LoopState.init ⟨[ReadEvent.data [1, 2, 3]], none⟩)).trace) :=
  ⟨(cancellation_only_exit ⟨[ReadEvent.data [1, 2, 3]], none⟩ 1 [false]).1,
    (cancellation_only_exit ⟨[ReadEvent.data [1, 2, 3]], none⟩ 1 [false]).2.2.2.2.2.2
      (List.replicate 1 false ++ true :: [false])
      (pipeToChan (List.replicate 1 false)
        (LoopState.init ⟨[ReadEvent.data [1, 2, 3]], none⟩)).trace []
      (cancellation_only_exit ⟨[ReadEvent.data [1, 2, 3]], none⟩ 1 [false]).1⟩

end video
